import Mathlib

/-!
# pfc-tcp-client: connection lifecycle

A shallow embedding of `client/client.go` and `client/message.go`:
the configuration constructor, the dial retry loop, the handshake
negotiation, the reader loop and the coordinator loop of `Run`.

The transport (`net.Conn`, `net.Dialer`) is the environment.  A connection is
a record holding the scripted results of its future `Read`, `Write` and
`Close` calls together with a log of what the client did to it.  The session
after the handshake is a transition system whose events are the steps of the
three goroutines between the points where they block (`Read`, the send on
`msgch`, the `select`, the ticker).
-/

namespace PfcTcpClient

/-! ## Protocol constants (`message.go`) -/

/-- One octet on the wire. -/
abbrev Byte := Fin 256

def PROTOCOL_VERSION : Nat := 1
def HANDSHAKE_REQUEST_BYTE : Nat := 5
def HANDSHAKE_RESPONSE_BYTE : Nat := 6

/-- The struct `MessageHandshakeRequest`: a `uint16` and a `uint8`. -/
structure MessageHandshakeRequest where
  ProtocolVersion : Nat
  HandshakeRequestByte : Nat
  deriving DecidableEq, Repr

/-- The struct `MessageHandshakeResponse`: a `uint16` and a `uint8`. -/
structure MessageHandshakeResponse where
  ProtocolVersion : Nat
  HandshakeResponseByte : Nat
  deriving DecidableEq, Repr

/-! ## Errors -/

/-- Go `error` values that occur in the client.  `new msg` is `errors.New msg`;
`net code` is any error of the transport other than `io.EOF`. -/
inductive GoError where
  | eof
  | unexpectedEOF
  | new (msg : String)
  | net (code : Nat)
  deriving DecidableEq, Repr

/-- The error `net.ErrClosed` of an operation on a connection closed locally. -/
def errClosed : GoError := .new "use of closed network connection"

/-! ## The transport -/

/-- What the transport holds for the next `conn.Read`: the bytes that have
arrived and the error that follows them. -/
structure ReadResult where
  data : List Byte
  err : Option GoError
  deriving DecidableEq, Repr

/-- A `net.Conn`.  `reads`, `writes`, `closes` script the results of the calls
still to come (an empty `reads` means `Read` waits; an empty `writes` or
`closes` means the call succeeds); `written` logs the argument of every
`Write` call so far and `closeCalls` counts the `Close` calls so far, the
connection being closed locally once it is positive. -/
structure Conn where
  reads : List ReadResult
  writes : List (Option GoError)
  closes : List (Option GoError)
  written : List (List Byte)
  closeCalls : Nat
  deriving DecidableEq, Repr

/-- The call `n, err := conn.Read(buf)` with `len(buf) = size`: yields `buf[:n]`,
`err` and the connection afterwards; `none` when the call does not return.
On a connection closed locally it fails at once with `net.ErrClosed`; bytes
that do not fit in `buf` stay, with their error, for the next call. -/
def Conn.Read (c : Conn) (size : Nat) : Option (List Byte × Option GoError × Conn) :=
  if 0 < c.closeCalls then some ([], some errClosed, c)
  else
    match c.reads with
    | [] => none
    | r :: rest =>
      if r.data.length ≤ size then some (r.data, r.err, { c with reads := rest })
      else
        some (r.data.take size, none,
          { c with reads := { data := r.data.drop size, err := r.err } :: rest })

/-- The call `_, err := conn.Write(b)`. -/
def Conn.Write (c : Conn) (b : List Byte) : Option GoError × Conn :=
  (c.writes.headD none, { c with writes := c.writes.tail, written := c.written ++ [b] })

/-- The call `conn.Close()`. -/
def Conn.Close (c : Conn) : Option GoError × Conn :=
  (c.closes.headD none, { c with closes := c.closes.tail, closeCalls := c.closeCalls + 1 })

/-! ## `encoding/binary` on the two handshake structs -/

/-- The outcome of `binary.Read(bytes.NewBuffer(b), binary.LittleEndian, msg)`
for `msg : *MessageHandshakeRequest`: three bytes are required
(`io.ReadFull`), the first two are the little-endian `uint16`. -/
def binaryReadRequest (b : List Byte) : Except GoError MessageHandshakeRequest :=
  match b with
  | [] => .error .eof
  | [_] => .error .unexpectedEOF
  | [_, _] => .error .unexpectedEOF
  | b0 :: b1 :: b2 :: _ =>
    .ok { ProtocolVersion := b0.val + 256 * b1.val, HandshakeRequestByte := b2.val }

/-- The bytes `binary.Write(buf, binary.LittleEndian, respMsg)` appends. -/
def binaryWriteResponse (m : MessageHandshakeResponse) : List Byte :=
  [Fin.ofNat (m.ProtocolVersion % 256), Fin.ofNat (m.ProtocolVersion / 256 % 256),
   Fin.ofNat (m.HandshakeResponseByte % 256)]

/-! ## `Client.handleHandshake` -/

/-- The method `handleHandshake` on the client's connection: the returned error and
the connection afterwards; `none` when the first `Read` never returns. -/
def handleHandshake (conn : Conn) : Option (Option GoError × Conn) :=
  match conn.Read 1024 with
  | none => none
  | some (buf, err, conn1) =>
    match err with
    | some e => some (some e, conn1)
    | none =>
      match binaryReadRequest buf with
      | .error e => some (some e, conn1)
      | .ok msg =>
        if msg.ProtocolVersion ≠ PROTOCOL_VERSION then
          some (some (.new ("handshake error, expected protocol version: "
            ++ toString PROTOCOL_VERSION)), conn1)
        else if msg.HandshakeRequestByte ≠ HANDSHAKE_REQUEST_BYTE then
          some (some (.new "handshake error, invalid request byte"), conn1)
        else
          let respMsg : MessageHandshakeResponse :=
            { ProtocolVersion := 1, HandshakeResponseByte := 0x06 }
          let respBuf := binaryWriteResponse respMsg
          match conn1.Write respBuf with
          | (some e, conn2) => some (some e, conn2)
          | (none, conn2) => some (none, conn2)

/-! ## `ClientConfig` and `NewClientConfig` -/

/-- A value of type `any` passed to `NewClientConfig`.  `other shown` is a value
of any type besides `time.Duration`, `int` and `string` (or `nil`); `shown` is
what `fmt` prints for it under `%s`. -/
inductive GoAny where
  | duration (d : Int)
  | int (i : Int)
  | string (s : String)
  | other (shown : String)
  deriving DecidableEq, Repr

structure ClientConfig where
  dialInterval : Int
  dialAttempts : Int
  remoteAddr : String
  deriving DecidableEq, Repr

/-- The `for _, param := range params` loop of `NewClientConfig`. -/
def configLoop (config : ClientConfig) : List GoAny → Except GoError ClientConfig
  | [] => .ok config
  | param :: rest =>
    match param with
    | .duration t => configLoop { config with dialInterval := t } rest
    | .int t => configLoop { config with dialAttempts := t } rest
    | .string t => configLoop { config with remoteAddr := t } rest
    | .other shown => .error (.new ("error, invalid type: " ++ shown))

def NewClientConfig (params : List GoAny) : Except GoError ClientConfig :=
  if params.length ≠ 3 then
    .error (.new ("error, params length mismatch; expected 3, found: "
      ++ toString params.length))
  else
    configLoop { dialInterval := 0, dialAttempts := 0, remoteAddr := "" } params

/-! ## `Client` -/

/-- The struct `Client`.  `conn` is `none` while the field is `nil`.  The two
channels are part of the session state below. -/
structure Client where
  remoteAddr : String
  dialInterval : Int
  dialAttepmts : Int
  conn : Option Conn
  deriving DecidableEq, Repr

def NewClient (c : ClientConfig) : Client :=
  { remoteAddr := c.remoteAddr, dialInterval := c.dialInterval,
    dialAttepmts := c.dialAttempts, conn := none }

/-! ## `Client.dial` -/

/-- Addition on Go's 64-bit `int`: two's complement wrap-around. -/
def intAdd (a b : Int) : Int :=
  (a + b + 9223372036854775808) % 18446744073709551616 - 9223372036854775808

/-- The network as `dial` sees it: the result of the `i`-th call (from 0) of
`dialer.Dial("tcp", c.remoteAddr)`. -/
abbrev Dialer := Nat → Except GoError Conn

/-- What `dial` did: the number of `dialer.Dial` calls and the argument of every
`time.Sleep` call, in order. -/
structure DialTrace where
  dials : Nat
  sleeps : List Int
  deriving DecidableEq, Repr

/-- The `for` loop of `dial`, one iteration per unit of fuel; `none` when the
fuel runs out before the loop is left. -/
def dialLoop (net : Dialer) (c : Client) :
    Nat → Int → DialTrace → Option (Option GoError × Client × DialTrace)
  | 0, _, _ => none
  | fuel + 1, attempts, tr =>
    if attempts > c.dialAttepmts then
      some (some (.new ("error, to many dial attempts: " ++ toString attempts)), c, tr)
    else
      match net tr.dials with
      | .error _ =>
        dialLoop net c fuel (intAdd attempts 1)
          { dials := tr.dials + 1, sleeps := tr.sleeps ++ [c.dialInterval] }
      | .ok conn =>
        some (none, { c with conn := some conn }, { tr with dials := tr.dials + 1 })

def dial (net : Dialer) (c : Client) (fuel : Nat) :
    Option (Option GoError × Client × DialTrace) :=
  dialLoop net c fuel 0 { dials := 0, sleeps := [] }

/-! ## `Client.handleRead` -/

/-- The outcome of one iteration of the `for` loop of `handleRead`. -/
inductive ReaderStep where
  /-- The call of `Read` never returns. -/
  | blocked
  /-- The `return` was reached and the deferred `c.conn.Close()` has run. -/
  | exited (conn : Conn)
  /-- The send `c.msgch <- string(buf[:n])` was reached. -/
  | sent (msg : List Byte) (conn : Conn)
  deriving DecidableEq, Repr

def handleReadIter (conn : Conn) : ReaderStep :=
  match conn.Read 2048 with
  | none => .blocked
  | some (buf, err, conn1) =>
    if err = some .eof then .exited conn1.Close.2
    else .sent buf conn1

/-- What a run of `handleRead` did: the connection afterwards, the messages sent
on `msgch` in order, the number of `Read` calls that returned, and whether
`handleRead` returned (otherwise it waits in `Read`). -/
structure ReaderRun where
  conn : Conn
  delivered : List (List Byte)
  readCalls : Nat
  returned : Bool
  deriving DecidableEq, Repr

/-- The loop of `handleRead` with a receiver always ready on `msgch`; `none` when
the fuel runs out. -/
def handleReadLoop : Nat → Conn → List (List Byte) → Nat → Option ReaderRun
  | 0, _, _, _ => none
  | fuel + 1, conn, q, n =>
    match handleReadIter conn with
    | .blocked => some { conn := conn, delivered := q, readCalls := n, returned := false }
    | .exited conn1 => some { conn := conn1, delivered := q, readCalls := n + 1, returned := true }
    | .sent msg conn1 => handleReadLoop fuel conn1 (q ++ [msg]) (n + 1)

def handleRead (conn : Conn) (fuel : Nat) : Option ReaderRun :=
  handleReadLoop fuel conn [] 0

/-! ## `Client.write`, `Client.quit` and the session after the handshake -/

def write (conn : Conn) (b : List Byte) : Option GoError × Conn :=
  match conn.Write b with
  | (some e, conn1) => (some e, conn1)
  | (none, conn1) => (none, conn1)

/-- The payload `[]byte("Hello")` of `handleWrite`. -/
def helloPayload : List Byte := [72, 101, 108, 108, 111]

/-- One round of the `for range tick.C` loop of `handleWrite`: the error of
`c.write` is dropped. -/
def handleWriteTick (conn : Conn) : Conn :=
  (write conn helloPayload).2

/-- The state of `Run` once the two goroutines are started.
`readerEnded`: `handleRead` is over (by `return` or by a panic) and its deferred
`c.conn.Close()` has run.  `pending`: the reader waits in `c.msgch <- msg` with
this message.  `msgchClosed`: `close(c.msgch)` has run.  `logged`: the
messages the coordinator received from `msgch`.  `result`: `some r` once
`Run` has returned `r`.  `panicked`: the reader panicked on a send on the
closed `msgch`. -/
structure Session where
  conn : Conn
  readerEnded : Bool
  pending : Option (List Byte)
  msgchClosed : Bool
  logged : List (List Byte)
  result : Option (Option GoError)
  panicked : Bool
  deriving DecidableEq, Repr

/-- The method `quit`: `close(c.msgch)` then `return c.conn.Close()`. -/
def quit (s : Session) : Option GoError × Session :=
  let s1 := { s with msgchClosed := true }
  (s1.conn.Close.1, { s1 with conn := s1.conn.Close.2 })

/-- The send `c.msgch <- msg` of `handleRead` on the closed channel: it panics,
and the deferred `c.conn.Close()` runs while the goroutine unwinds. -/
def sendPanics (s : Session) (conn : Conn) : Session :=
  { s with conn := conn.Close.2, readerEnded := true, pending := none, panicked := true }

/-- What the scheduler lets happen next. -/
inductive Event where
  /-- The reader goroutine runs up to the next point where it waits. -/
  | read
  /-- The coordinator takes `case msg := <-c.msgch` and logs the message. -/
  | recv
  /-- The ticker fires and the writer goroutine calls `c.write([]byte("Hello"))`. -/
  | tick
  /-- The coordinator takes `case <-c.closech` and runs `return c.quit()`. -/
  | close
  deriving DecidableEq, Repr

def Session.start (conn : Conn) : Session :=
  { conn := conn, readerEnded := false, pending := none, msgchClosed := false, logged := [],
    result := none, panicked := false }

/-- The reader goroutine from where it stands to where it next waits. -/
def Session.readerStep (s : Session) : Session :=
  if s.readerEnded then s
  else
    match s.pending with
    | some _ =>
      if s.msgchClosed then sendPanics s s.conn
      else s
    | none =>
      match handleReadIter s.conn with
      | .blocked => s
      | .exited conn1 => { s with conn := conn1, readerEnded := true }
      | .sent msg conn1 =>
        if s.msgchClosed then sendPanics s conn1
        else { s with conn := conn1, pending := some msg }

/-- One event of the session.  The coordinator acts only while `Run` has not
returned; the reader and the writer go on after that.  After a panic the
process is going down: what the other goroutines still do before it ends is
what the list of events still holds. -/
def Session.step (s : Session) (ev : Event) : Session :=
  match ev with
  | .read => s.readerStep
  | .recv =>
    if s.result.isSome then s
    else
      match s.pending with
      | none => s
      | some msg => { s with pending := none, logged := s.logged ++ [msg] }
  | .tick => { s with conn := handleWriteTick s.conn }
  | .close =>
    if s.result.isSome then s
    else
      let (err, s1) := quit s
      { s1 with result := some err }

def Session.run (s : Session) (events : List Event) : Session :=
  events.foldl Session.step s

/-! ## `Client.Run` -/

/-- How a call of `Run` went. -/
inductive RunOutcome where
  /-- The method `dial` failed and `Run` returned its error. -/
  | dialFailed (err : GoError) (tr : DialTrace)
  /-- The field `c.conn` is `nil` after `dial` returned `nil`. -/
  | nilConn (tr : DialTrace)
  /-- The handshake `Read` never returns. -/
  | handshakeBlocked (tr : DialTrace)
  /-- The session was entered; `handshakeErr` is what `handleHandshake` returned. -/
  | session (tr : DialTrace) (handshakeErr : Option GoError) (s : Session)
  deriving DecidableEq, Repr

/-- The value `Run` returned, `none` if it has not returned. -/
def RunOutcome.result : RunOutcome → Option (Option GoError)
  | .dialFailed err _ => some (some err)
  | .nilConn _ => none
  | .handshakeBlocked _ => none
  | .session _ _ s => s.result

/-- The method `Run` against a network `net` and a schedule `events` of the
session; `none` when the fuel of `dial` runs out. -/
def Run (net : Dialer) (c : Client) (fuel : Nat) (events : List Event) : Option RunOutcome :=
  match dial net c fuel with
  | none => none
  | some (some err, _, tr) => some (.dialFailed err tr)
  | some (none, c1, tr) =>
    match c1.conn with
    | none => some (.nilConn tr)
    | some conn =>
      match handleHandshake conn with
      | none => some (.handshakeBlocked tr)
      | some (herr, conn1) => some (.session tr herr ((Session.start conn1).run events))

/-- A connection with nothing scripted and nothing done to it yet. -/
def conn0 : Conn := { reads := [], writes := [], closes := [], written := [], closeCalls := 0 }

/-! ## Measures of the session -/

/-- The count 1 for `true` and 0 for `false`. -/
def count (b : Bool) : Nat := if b then 1 else 0

/-! ## Concrete networks and servers used in the examples -/

/-- A network that refuses `n` dials and accepts from then on, the `i`-th dial
yielding a connection recognisable by its `i` scripted writes. -/
def netAcceptingFrom (n : Nat) : Dialer := fun i =>
  if i < n then .error (.net 111) else .ok { conn0 with writes := List.replicate i none }

/-- A network that refuses every dial. -/
def netRefusing : Dialer := fun _ => .error (.net 111)

/-- A client whose `dialAttepmts` is the largest `int`. -/
def clientMaxInt : Client :=
  NewClient { dialInterval := 7, dialAttempts := 9223372036854775807, remoteAddr := ":3000" }

/-- A server that sends the handshake request `01 00 05` and then ends the
stream; the first `Close` succeeds, the second gives `net.ErrClosed`. -/
def connHangup : Conn :=
  { conn0 with reads := [⟨[1, 0, 5], none⟩, ⟨[], some .eof⟩], closes := [none, some errClosed] }

/-- A network whose first dial reaches `connHangup`. -/
def netHangup : Dialer := fun _ => .ok connHangup

/-- A server that sends a handshake request with the wrong version, after which
a read fails and every write fails, while `Close` succeeds. -/
def connFaulty : Conn :=
  { conn0 with reads := [⟨[9, 9, 9], none⟩, ⟨[], some (.net 104)⟩],
               writes := [some (.net 32), some (.net 32)] }

/-! ## Handshake -/

theorem Conn.Read_written (conn conn1 : Conn) (size : Nat) (buf : List Byte)
    (err : Option GoError) (h : conn.Read size = some (buf, err, conn1)) :
    conn1.written = conn.written ∧ conn1.closes = conn.closes
      ∧ conn1.closeCalls = conn.closeCalls := by
  unfold Conn.Read at h
  split at h
  · simp only [Option.some.injEq, Prod.mk.injEq] at h
    obtain ⟨-, -, rfl⟩ := h
    exact ⟨rfl, rfl, rfl⟩
  · cases hr : conn.reads with
    | nil => simp [hr] at h
    | cons r rest =>
      simp only [hr] at h
      split at h
      · simp only [Option.some.injEq, Prod.mk.injEq] at h
        obtain ⟨-, -, rfl⟩ := h
        exact ⟨rfl, rfl, rfl⟩
      · simp only [Option.some.injEq, Prod.mk.injEq] at h
        obtain ⟨-, -, rfl⟩ := h
        exact ⟨rfl, rfl, rfl⟩

/-- C1: when the handshake read returns, without error, a chunk starting with
`01 00 05` and the write succeeds, `handleHandshake` returns `nil` and its only
effect on the connection after the read is one `Write` of exactly `01 00 06`. -/
theorem handleHandshake_valid (conn conn1 : Conn) (tail : List Byte)
    (hread : conn.Read 1024 = some (1 :: 0 :: 5 :: tail, none, conn1))
    (hwrite : (conn1.Write [1, 0, 6]).1 = none) :
    handleHandshake conn
      = some (none, { conn1 with writes := conn1.writes.tail,
                                 written := conn1.written ++ [[1, 0, 6]] })
    ∧ conn1.written = conn.written := by
  refine ⟨?_, (Conn.Read_written conn conn1 1024 _ _ hread).1⟩
  have hresp : binaryWriteResponse { ProtocolVersion := 1, HandshakeResponseByte := 0x06 }
      = [1, 0, 6] := by decide
  unfold handleHandshake
  rw [hread]
  simp only [binaryReadRequest, PROTOCOL_VERSION, HANDSHAKE_REQUEST_BYTE, hresp]
  have h2 : conn1.Write [1, 0, 6]
      = (none, { conn1 with writes := conn1.writes.tail
                            written := conn1.written ++ [[1, 0, 6]] }) := by
    have h3 : (conn1.Write [1, 0, 6]).1 = none := hwrite
    unfold Conn.Write at h3 ⊢
    simp only at h3
    rw [h3]
  rw [h2, if_neg (by decide), if_neg (by decide)]

theorem handleHandshake_valid_witness :
    handleHandshake { conn0 with reads := [⟨[1, 0, 5, 9], none⟩] }
      = some (none, { conn0 with written := [[1, 0, 6]] })
    ∧ conn0.written = [] :=
  handleHandshake_valid { conn0 with reads := [⟨[1, 0, 5, 9], none⟩] } conn0 [9]
    (by decide) (by decide)

/-- C2: when the handshake read returns, without error, a chunk of at least three
bytes whose first two bytes decode (little-endian) to a version other than 1,
`handleHandshake` fails with the version error whatever the third byte is, and
no `Write` is made. -/
theorem handleHandshake_version_mismatch (conn conn1 : Conn) (b0 b1 b2 : Byte)
    (tail : List Byte)
    (hread : conn.Read 1024 = some (b0 :: b1 :: b2 :: tail, none, conn1))
    (hver : b0.val + 256 * b1.val ≠ PROTOCOL_VERSION) :
    handleHandshake conn
      = some (some (.new "handshake error, expected protocol version: 1"), conn1)
    ∧ conn1.written = conn.written := by
  refine ⟨?_, (Conn.Read_written conn conn1 1024 _ _ hread).1⟩
  unfold handleHandshake
  rw [hread]
  simp only [binaryReadRequest]
  rw [if_pos hver]
  rfl

theorem handleHandshake_version_mismatch_witness :
    handleHandshake { conn0 with reads := [⟨[2, 0, 5], none⟩] }
      = some (some (.new "handshake error, expected protocol version: 1"), conn0)
    ∧ conn0.written = [] :=
  handleHandshake_version_mismatch { conn0 with reads := [⟨[2, 0, 5], none⟩] } conn0 2 0 5 []
    (by decide) (by decide)

/-- C3: when the handshake read returns, without error, a chunk of at least three
bytes with version 1 and a third byte other than 5, `handleHandshake` fails
with the invalid-request-byte error, not the version error, and no `Write` is
made. -/
theorem handleHandshake_invalid_marker (conn conn1 : Conn) (b0 b1 b2 : Byte)
    (tail : List Byte)
    (hread : conn.Read 1024 = some (b0 :: b1 :: b2 :: tail, none, conn1))
    (hver : b0.val + 256 * b1.val = PROTOCOL_VERSION)
    (hmark : b2.val ≠ HANDSHAKE_REQUEST_BYTE) :
    handleHandshake conn
      = some (some (.new "handshake error, invalid request byte"), conn1)
    ∧ GoError.new "handshake error, invalid request byte"
        ≠ GoError.new "handshake error, expected protocol version: 1"
    ∧ conn1.written = conn.written := by
  refine ⟨?_, by decide, (Conn.Read_written conn conn1 1024 _ _ hread).1⟩
  unfold handleHandshake
  rw [hread]
  simp only [binaryReadRequest]
  rw [if_neg (not_not.mpr hver), if_pos hmark]

theorem handleHandshake_invalid_marker_witness :
    handleHandshake { conn0 with reads := [⟨[1, 0, 6, 7], none⟩] }
      = some (some (.new "handshake error, invalid request byte"), conn0)
    ∧ GoError.new "handshake error, invalid request byte"
        ≠ GoError.new "handshake error, expected protocol version: 1"
    ∧ conn0.written = [] :=
  handleHandshake_invalid_marker { conn0 with reads := [⟨[1, 0, 6, 7], none⟩] } conn0 1 0 6 [7]
    (by decide) (by decide) (by decide)

/-- The part of a chunk that `handleHandshake` looks at decides what
`binary.Read` yields. -/
theorem binaryReadRequest_take (b : List Byte) (h : 3 ≤ b.length) :
    binaryReadRequest b = binaryReadRequest (b.take 3) := by
  match b, h with
  | b0 :: b1 :: b2 :: rest, _ => simp [binaryReadRequest]

/-- C10: a handshake read that returns fewer than three bytes without error
makes `handleHandshake` return an error with no `Write` made; and two reads that
return chunks of three or more bytes with the same first three bytes, leaving
the same connection, give the same result. -/
theorem handleHandshake_short_and_first_three (conn conn1 : Conn) (buf : List Byte)
    (hread : conn.Read 1024 = some (buf, none, conn1)) :
    (buf.length < 3 →
      (∃ e, handleHandshake conn = some (some e, conn1)) ∧ conn1.written = conn.written)
    ∧ (3 ≤ buf.length → ∀ (conn2 : Conn) (buf2 : List Byte),
        conn2.Read 1024 = some (buf2, none, conn1) → 3 ≤ buf2.length →
        buf2.take 3 = buf.take 3 → handleHandshake conn2 = handleHandshake conn) := by
  constructor
  · intro hlen
    refine ⟨?_, (Conn.Read_written conn conn1 1024 _ _ hread).1⟩
    unfold handleHandshake
    rw [hread]
    match buf, hlen with
    | [], _ => exact ⟨_, rfl⟩
    | [_], _ => exact ⟨_, rfl⟩
    | [_, _], _ => exact ⟨_, rfl⟩
  · intro hlen conn2 buf2 hread2 hlen2 htake
    unfold handleHandshake
    rw [hread, hread2]
    simp only
    rw [binaryReadRequest_take buf hlen, binaryReadRequest_take buf2 hlen2, htake]

theorem handleHandshake_short_and_first_three_witness :
    ((∃ e, handleHandshake { conn0 with reads := [⟨[1, 0], none⟩] } = some (some e, conn0))
      ∧ conn0.written = [])
    ∧ handleHandshake { conn0 with reads := [⟨[1, 0, 5, 7, 7], none⟩] }
        = handleHandshake { conn0 with reads := [⟨[1, 0, 5], none⟩] } :=
  ⟨(handleHandshake_short_and_first_three { conn0 with reads := [⟨[1, 0], none⟩] } conn0
      [1, 0] (by decide)).1 (by decide),
   (handleHandshake_short_and_first_three { conn0 with reads := [⟨[1, 0, 5], none⟩] } conn0
      [1, 0, 5] (by decide)).2 (by decide) { conn0 with reads := [⟨[1, 0, 5, 7, 7], none⟩] }
      [1, 0, 5, 7, 7] (by decide) (by decide) (by decide)⟩

/-! ## Dial retry -/

/-- Below the largest `int` the increment `attempts += 1` does not wrap. -/
theorem intAdd_one (a : Int) (h0 : 0 ≤ a) (h1 : a < 9223372036854775807) :
    intAdd a 1 = a + 1 := by
  unfold intAdd
  omega

/-- From `attempts = a` with `m` refused dials ahead and `a + m = dialAttepmts + 1`,
the loop makes exactly those `m` dials, sleeps after each and then fails. -/
theorem dialLoop_refused (net : Dialer) (c : Client)
    (hmax : c.dialAttepmts < 9223372036854775807) (m : Nat) :
    ∀ (fuel : Nat) (a : Int) (tr : DialTrace), 0 ≤ a → a + m = c.dialAttepmts + 1 →
      (∀ j, j < m → ∃ e, net (tr.dials + j) = .error e) → m + 1 ≤ fuel →
      dialLoop net c fuel a tr
        = some (some (.new ("error, to many dial attempts: "
              ++ toString (c.dialAttepmts + 1))), c,
            { dials := tr.dials + m, sleeps := tr.sleeps ++ List.replicate m c.dialInterval }) := by
  induction m with
  | zero =>
    intro fuel a tr _ ha _ hfuel
    obtain ⟨f, rfl⟩ : ∃ f, fuel = f + 1 := ⟨fuel - 1, by omega⟩
    have hgt : a > c.dialAttepmts := by omega
    have ha2 : a = c.dialAttepmts + 1 := by omega
    unfold dialLoop
    rw [if_pos hgt, ha2]
    simp
  | succ m ih =>
    intro fuel a tr h0 ha hnet hfuel
    obtain ⟨f, rfl⟩ : ∃ f, fuel = f + 1 := ⟨fuel - 1, by omega⟩
    have hle : ¬ a > c.dialAttepmts := by omega
    obtain ⟨e, he⟩ := hnet 0 (by omega)
    rw [Nat.add_zero] at he
    unfold dialLoop
    rw [if_neg hle, he]
    simp only
    rw [intAdd_one a h0 (by omega)]
    rw [ih f (a + 1) _ (by omega) (by push_cast at ha ⊢; omega) ?_ (by omega)]
    · simp [List.replicate_succ, Nat.add_assoc, Nat.add_comm 1 m]
    · intro j hj
      obtain ⟨e2, he2⟩ := hnet (j + 1) (by omega)
      exact ⟨e2, by simpa [Nat.add_assoc, Nat.add_comm 1 j] using he2⟩

/-- From `attempts = a` with `m` refused dials ahead, then an accepted one, and
`a + m ≤ dialAttepmts`, the loop makes exactly `m + 1` dials, sleeps after each
refused one and stores the accepted connection. -/
theorem dialLoop_accepted (net : Dialer) (c : Client) (conn : Conn)
    (hmax : c.dialAttepmts ≤ 9223372036854775807) (m : Nat) :
    ∀ (fuel : Nat) (a : Int) (tr : DialTrace), 0 ≤ a → a + m ≤ c.dialAttepmts →
      (∀ j, j < m → ∃ e, net (tr.dials + j) = .error e) →
      net (tr.dials + m) = .ok conn → m + 1 ≤ fuel →
      dialLoop net c fuel a tr
        = some (none, { c with conn := some conn },
            { dials := tr.dials + m + 1,
              sleeps := tr.sleeps ++ List.replicate m c.dialInterval }) := by
  induction m with
  | zero =>
    intro fuel a tr _ ha _ hok hfuel
    obtain ⟨f, rfl⟩ : ∃ f, fuel = f + 1 := ⟨fuel - 1, by omega⟩
    have hle : ¬ a > c.dialAttepmts := by push_cast at ha; omega
    rw [Nat.add_zero] at hok
    unfold dialLoop
    rw [if_neg hle, hok]
    simp
  | succ m ih =>
    intro fuel a tr h0 ha hnet hok hfuel
    obtain ⟨f, rfl⟩ : ∃ f, fuel = f + 1 := ⟨fuel - 1, by omega⟩
    have hle : ¬ a > c.dialAttepmts := by push_cast at ha; omega
    obtain ⟨e, he⟩ := hnet 0 (by omega)
    rw [Nat.add_zero] at he
    unfold dialLoop
    rw [if_neg hle, he]
    simp only
    rw [intAdd_one a h0 (by push_cast at ha; omega)]
    rw [ih f (a + 1) _ (by omega) (by push_cast at ha ⊢; omega) ?_ ?_ (by omega)]
    · simp [List.replicate_succ, Nat.add_assoc, Nat.add_comm 1 m]
    · intro j hj
      obtain ⟨e2, he2⟩ := hnet (j + 1) (by omega)
      exact ⟨e2, by simpa [Nat.add_assoc, Nat.add_comm 1 j] using he2⟩
    · simpa [Nat.add_assoc, Nat.add_comm 1 m] using hok

/-- The increment `attempts += 1` stays within the 64-bit `int`. -/
theorem intAdd_one_range (a : Int) :
    -9223372036854775808 ≤ intAdd a 1 ∧ intAdd a 1 ≤ 9223372036854775807 := by
  unfold intAdd
  omega

/-- With `dialAttepmts` the largest `int` the test `attempts > c.dialAttepmts`
never holds, so against a network that refuses every dial the loop is never
left. -/
theorem dialLoop_max_int_goes_on (fuel : Nat) :
    ∀ (a : Int) (tr : DialTrace), a ≤ 9223372036854775807 →
      dialLoop netRefusing clientMaxInt fuel a tr = none := by
  induction fuel with
  | zero => intro a tr _; rfl
  | succ f ih =>
    intro a tr ha
    have hle : ¬ a > clientMaxInt.dialAttepmts := by
      have : clientMaxInt.dialAttepmts = 9223372036854775807 := rfl
      omega
    unfold dialLoop
    rw [if_neg hle]
    exact ih _ _ (intAdd_one_range a).2

/-- C4 as stated fails at `N` the largest `int`: with every dial refused the
counter wraps round before it can exceed `N`, and `dial` returns nothing,
neither an error nor a connection, however many iterations it is given. -/
theorem dial_max_int_never_returns :
    ¬ ∃ fuel r, dial netRefusing clientMaxInt fuel = some r := by
  rintro ⟨fuel, r, h⟩
  rw [dial, dialLoop_max_int_goes_on fuel 0 _ (by decide)] at h
  exact Option.noConfusion h

/-- C4, as the code has it: with `dialAttepmts = N`, `0 ≤ N` and `N + 1` still an
`int`, and the dials number `0 … N` refused, `dial` returns, given fuel for
`N + 2` iterations, the error that reports `N + 1` attempts, after exactly
`N + 1` dials and `N + 1` sleeps of `dialInterval`; the outcome of a further
dial is never asked for. -/
theorem dial_all_refused (net : Dialer) (c : Client) (N fuel : Nat)
    (hN : c.dialAttepmts = (N : Int)) (hmax : N < 9223372036854775807)
    (hrefused : ∀ i, i ≤ N → ∃ e, net i = .error e) (hfuel : N + 2 ≤ fuel) :
    dial net c fuel
      = some (some (.new ("error, to many dial attempts: " ++ toString ((N : Int) + 1))), c,
          { dials := N + 1, sleeps := List.replicate (N + 1) c.dialInterval }) := by
  unfold dial
  rw [dialLoop_refused net c (by omega) (N + 1) fuel 0 _ (le_refl _)
    (by push_cast; omega) (fun j hj => by simpa using hrefused j (by omega)) (by omega)]
  simp [hN]

theorem dial_all_refused_witness :
    dial (netAcceptingFrom 3) (NewClient ⟨7, 2, ":3000"⟩) 10
      = some (some (.new ("error, to many dial attempts: " ++ toString (((2 : Nat) : Int) + 1))),
          NewClient ⟨7, 2, ":3000"⟩,
          { dials := 2 + 1, sleeps := List.replicate (2 + 1) (NewClient ⟨7, 2, ":3000"⟩).dialInterval }) :=
  dial_all_refused (netAcceptingFrom 3) (NewClient ⟨7, 2, ":3000"⟩) 2 10 (by decide) (by decide)
    (fun i hi => ⟨.net 111, by simp [netAcceptingFrom]; omega⟩) (by decide)

/-- C5: with `dialAttepmts = N ≥ 0` and the first accepted dial being the `k`-th,
`1 ≤ k ≤ N + 1`, `dial` returns `nil`, given fuel for `k` iterations, with the
connection of the `k`-th dial stored in the client, after exactly `k` dials and
`k - 1` sleeps of `dialInterval`. -/
theorem dial_first_success (net : Dialer) (c : Client) (conn : Conn) (N k fuel : Nat)
    (hN : c.dialAttepmts = (N : Int)) (hmax : N ≤ 9223372036854775807)
    (hk1 : 1 ≤ k) (hk : k ≤ N + 1)
    (hrefused : ∀ i, i < k - 1 → ∃ e, net i = .error e)
    (haccepted : net (k - 1) = .ok conn) (hfuel : k ≤ fuel) :
    dial net c fuel
      = some (none, { c with conn := some conn },
          { dials := k, sleeps := List.replicate (k - 1) c.dialInterval }) := by
  unfold dial
  rw [dialLoop_accepted net c conn (by omega) (k - 1) fuel 0 _ (le_refl _)
    (by rw [hN]; omega) (fun j hj => by simpa using hrefused j hj)
    (by simpa using haccepted) (by omega)]
  simp
  omega

theorem dial_first_success_witness :
    dial (netAcceptingFrom 2) (NewClient ⟨7, 2, ":3000"⟩) 10
      = some (none, { NewClient ⟨7, 2, ":3000"⟩ with conn := some { conn0 with writes := [none, none] } },
          { dials := 3, sleeps := List.replicate (3 - 1) (NewClient ⟨7, 2, ":3000"⟩).dialInterval }) :=
  dial_first_success (netAcceptingFrom 2) (NewClient ⟨7, 2, ":3000"⟩)
    { conn0 with writes := [none, none] } 2 3 10 (by decide) (by decide) (by decide) (by decide)
    (fun i hi => ⟨.net 111, by simp [netAcceptingFrom]; omega⟩) rfl (by decide)

/-! ## Configuration -/

/-- The loop of `NewClientConfig` keeps both numeric fields non-negative when it
starts so and is fed only non-negative numbers. -/
theorem configLoop_nonneg (params : List GoAny) :
    ∀ (config cfg : ClientConfig), configLoop config params = .ok cfg →
      0 ≤ config.dialAttempts → 0 ≤ config.dialInterval →
      (∀ i, GoAny.int i ∈ params → 0 ≤ i) → (∀ d, GoAny.duration d ∈ params → 0 ≤ d) →
      0 ≤ cfg.dialAttempts ∧ 0 ≤ cfg.dialInterval := by
  induction params with
  | nil =>
    intro config cfg h ha hd _ _
    simp only [configLoop, Except.ok.injEq] at h
    subst h
    exact ⟨ha, hd⟩
  | cons param rest ih =>
    intro config cfg h ha hd hint hdur
    have hint2 : ∀ i, GoAny.int i ∈ rest → 0 ≤ i := fun i hi =>
      hint i (List.mem_cons_of_mem _ hi)
    have hdur2 : ∀ d, GoAny.duration d ∈ rest → 0 ≤ d := fun d hd =>
      hdur d (List.mem_cons_of_mem _ hd)
    cases param with
    | duration t =>
      exact ih _ cfg h ha (hdur t (List.mem_cons_self _ _)) hint2 hdur2
    | int t =>
      exact ih _ cfg h (hint t (List.mem_cons_self _ _)) hd hint2 hdur2
    | string t => exact ih _ cfg h ha hd hint2 hdur2
    | other shown => simp [configLoop] at h

/-- C9, as the code has it: `NewClientConfig` stores the numbers it is given
without checking their sign, so the configuration it returns has
`dialAttempts ≥ 0` and `dialInterval ≥ 0` when every `int` and every
`time.Duration` among the arguments is non-negative. -/
theorem NewClientConfig_nonneg (params : List GoAny) (cfg : ClientConfig)
    (h : NewClientConfig params = .ok cfg)
    (hint : ∀ i, GoAny.int i ∈ params → 0 ≤ i)
    (hdur : ∀ d, GoAny.duration d ∈ params → 0 ≤ d) :
    0 ≤ cfg.dialAttempts ∧ 0 ≤ cfg.dialInterval := by
  unfold NewClientConfig at h
  split at h
  · simp at h
  · exact configLoop_nonneg params _ cfg h (le_refl _) (le_refl _) hint hdur

theorem NewClientConfig_nonneg_witness :
    0 ≤ (ClientConfig.mk 15000000000 25 ":3000").dialAttempts
      ∧ 0 ≤ (ClientConfig.mk 15000000000 25 ":3000").dialInterval :=
  NewClientConfig_nonneg [.string ":3000", .duration 15000000000, .int 25]
    ⟨15000000000, 25, ":3000"⟩ rfl
    (fun i hi => by simp at hi; omega) (fun d hd => by simp at hd; omega)

/-- C9 as stated fails: a negative `int` and a negative `time.Duration` are
accepted and stored. -/
theorem NewClientConfig_negative_accepted :
    NewClientConfig [.string ":3000", .duration (-1), .int (-1)]
      = .ok { dialInterval := -1, dialAttempts := -1, remoteAddr := ":3000" }
    ∧ ¬ (0 ≤ (ClientConfig.mk (-1) (-1) ":3000").dialAttempts
          ∧ 0 ≤ (ClientConfig.mk (-1) (-1) ":3000").dialInterval) :=
  ⟨rfl, by decide⟩

/-! ## Reader loop -/

/-- One iteration of the reader loop on a read that ends in `io.EOF`: the
connection is closed and `handleRead` returns, nothing being sent. -/
theorem handleReadIter_eof (conn : Conn) (r : ReadResult) (rest : List ReadResult)
    (hopen : conn.closeCalls = 0) (hreads : conn.reads = r :: rest)
    (hfits : r.data.length ≤ 2048) (heof : r.err = some .eof) :
    handleReadIter conn = .exited ({ conn with reads := rest } : Conn).Close.2 := by
  simp [handleReadIter, Conn.Read, hopen, hreads, hfits, heof]

/-- One iteration of the reader loop on a read that does not end in `io.EOF`,
be it a success or any other error: `buf[:n]` is sent and the loop goes on. -/
theorem handleReadIter_not_eof (conn : Conn) (r : ReadResult) (rest : List ReadResult)
    (hopen : conn.closeCalls = 0) (hreads : conn.reads = r :: rest)
    (hfits : r.data.length ≤ 2048) (heof : r.err ≠ some .eof) :
    handleReadIter conn = .sent r.data { conn with reads := rest } := by
  simp [handleReadIter, Conn.Read, hopen, hreads, hfits, heof]

/-- The reader loop up to the first `io.EOF`: every read before it, failed or
not, has its chunk sent; at the `io.EOF` the connection is closed once and
the loop is left, with no read after it and nothing sent for it. -/
theorem handleReadLoop_until_eof (before : List ReadResult) :
    ∀ (conn : Conn) (r : ReadResult) (rest : List ReadResult) (fuel n : Nat)
      (q : List (List Byte)),
      conn.closeCalls = 0 → conn.reads = before ++ r :: rest →
      (∀ x ∈ before, x.err ≠ some .eof ∧ x.data.length ≤ 2048) →
      r.err = some .eof → r.data.length ≤ 2048 → before.length + 1 ≤ fuel →
      handleReadLoop fuel conn q n
        = some { conn := ({ conn with reads := rest } : Conn).Close.2,
                 delivered := q ++ before.map (fun x => x.data),
                 readCalls := n + before.length + 1, returned := true } := by
  induction before with
  | nil =>
    intro conn r rest fuel n q hopen hreads _ heof hfits hfuel
    obtain ⟨f, rfl⟩ : ∃ f, fuel = f + 1 := ⟨fuel - 1, by omega⟩
    unfold handleReadLoop
    rw [handleReadIter_eof conn r rest hopen (by simpa using hreads) hfits heof]
    simp
  | cons x xs ih =>
    intro conn r rest fuel n q hopen hreads hne heof hfits hfuel
    obtain ⟨f, rfl⟩ : ∃ f, fuel = f + 1 := ⟨fuel - 1, by simp at hfuel; omega⟩
    unfold handleReadLoop
    rw [handleReadIter_not_eof conn x (xs ++ r :: rest) hopen (by simpa using hreads)
      (hne x (List.mem_cons_self _ _)).2 (hne x (List.mem_cons_self _ _)).1]
    simp only
    rw [ih { conn with reads := xs ++ r :: rest } r rest f (n + 1) _ hopen rfl
      (fun y hy => hne y (List.mem_cons_of_mem _ hy)) heof hfits (by simp at hfuel; omega)]
    simp [Nat.add_assoc, Nat.add_comm 1 xs.length]

/-- C7 fails on the code for an error other than `io.EOF`: the first read fails
with a transport error, yet the reader sends a message for it (the empty one),
reads again, sends the next chunk, does not close the connection and does not
return. -/
theorem handleRead_other_error_goes_on :
    handleRead { conn0 with reads := [⟨[], some (.net 104)⟩, ⟨[80, 73, 78, 71], none⟩] } 3
      = some { conn := conn0, delivered := [[], [80, 73, 78, 71]], readCalls := 2,
               returned := false }
    ∧ conn0.closeCalls = 0 := by
  decide

/-- An iteration of the reader loop that returns has called `Close` once. -/
theorem handleReadIter_exited (conn conn1 : Conn) (h : handleReadIter conn = .exited conn1) :
    conn1.closeCalls = conn.closeCalls + 1 ∧ conn1.closes = conn.closes.tail := by
  unfold handleReadIter at h
  cases hr : conn.Read 2048 with
  | none => simp [hr] at h
  | some x =>
    obtain ⟨buf, err, c1⟩ := x
    obtain ⟨-, h2, h3⟩ := Conn.Read_written conn c1 2048 buf err hr
    simp only [hr] at h
    split at h
    · simp only [ReaderStep.exited.injEq] at h
      subst h
      simp [Conn.Close, h2, h3]
    · simp at h

/-- An iteration of the reader loop that reaches the send has not called `Close`. -/
theorem handleReadIter_sent (conn conn1 : Conn) (msg : List Byte)
    (h : handleReadIter conn = .sent msg conn1) :
    conn1.closeCalls = conn.closeCalls ∧ conn1.closes = conn.closes := by
  unfold handleReadIter at h
  cases hr : conn.Read 2048 with
  | none => simp [hr] at h
  | some x =>
    obtain ⟨buf, err, c1⟩ := x
    obtain ⟨-, h2, h3⟩ := Conn.Read_written conn c1 2048 buf err hr
    simp only [hr] at h
    split at h
    · simp at h
    · simp only [ReaderStep.sent.injEq] at h
      obtain ⟨-, rfl⟩ := h
      exact ⟨h3, h2⟩

/-! ## Session -/

theorem write_snd (conn : Conn) (b : List Byte) : (write conn b).2 = (conn.Write b).2 := by
  unfold write
  split <;> simp_all

/-- What a step of the reader goroutine does to the rest of the session: it
leaves `result` and `msgchClosed` alone, and it calls `Close` exactly when the
reader ends. -/
theorem Session.readerStep_spec (s : Session) :
    s.readerStep.result = s.result ∧ s.readerStep.msgchClosed = s.msgchClosed
    ∧ s.readerStep.conn.closeCalls + count s.readerEnded
        = s.conn.closeCalls + count s.readerStep.readerEnded
    ∧ (s.readerStep.conn.closes = s.conn.closes
        ∨ s.readerStep.conn.closes = s.conn.closes.tail) := by
  unfold Session.readerStep
  cases hend : s.readerEnded with
  | true => simp [hend]
  | false =>
    simp only [Bool.false_eq_true, if_false]
    cases hp : s.pending with
    | some m =>
      simp only
      cases hc : s.msgchClosed with
      | true => simp [sendPanics, Conn.Close, count, hc]
      | false => simp [hend, hc]
    | none =>
      simp only
      cases hi : handleReadIter s.conn with
      | blocked => simp [hend]
      | exited conn1 =>
        obtain ⟨h1, h2⟩ := handleReadIter_exited s.conn conn1 hi
        simp [count, h1, h2]
      | sent msg conn1 =>
        obtain ⟨h1, h2⟩ := handleReadIter_sent s.conn conn1 msg hi
        simp only
        cases hc : s.msgchClosed with
        | true => simp [sendPanics, Conn.Close, count, hc, h1, h2]
        | false => simp [hend, hc, h1, h2]

/-- Every event adds to the `Close` calls exactly what it adds to "the reader
has ended" and "`Run` has returned". -/
theorem Session.step_closeCalls (s : Session) (ev : Event) :
    (s.step ev).conn.closeCalls + count s.readerEnded + count s.result.isSome
      = s.conn.closeCalls + count (s.step ev).readerEnded
          + count (s.step ev).result.isSome := by
  cases ev with
  | read =>
    obtain ⟨h1, -, h3, -⟩ := Session.readerStep_spec s
    simp only [Session.step, h1]
    omega
  | recv =>
    simp only [Session.step]
    split
    · rfl
    · split <;> rfl
  | tick => simp [Session.step, handleWriteTick, write_snd, Conn.Write]
  | close =>
    simp only [Session.step]
    cases hres : s.result with
    | some r => simp [hres]
    | none => simp [quit, Conn.Close, count]; omega

theorem Session.run_closeCalls (events : List Event) :
    ∀ s : Session,
      (s.run events).conn.closeCalls + count s.readerEnded + count s.result.isSome
        = s.conn.closeCalls + count (s.run events).readerEnded
            + count (s.run events).result.isSome := by
  induction events with
  | nil => intro s; rfl
  | cons ev rest ih =>
    intro s
    have h1 := Session.step_closeCalls s ev
    have h2 := ih (s.step ev)
    simp only [Session.run, List.foldl_cons] at h2 ⊢
    omega

/-- C8, as the code has it: in every execution of the session the number of
`Close` calls on the connection is one for the reader having ended (its
deferred call, after `io.EOF` or after a panic on the closed `msgch`) plus
one for `quit` having run (on the close signal); so it is at most two, and
it is two when both happened. -/
theorem Session.closeCalls_count (conn : Conn) (events : List Event) :
    ((Session.start conn).run events).conn.closeCalls
      = conn.closeCalls + count ((Session.start conn).run events).readerEnded
          + count ((Session.start conn).run events).result.isSome
    ∧ ((Session.start conn).run events).conn.closeCalls ≤ conn.closeCalls + 2 := by
  have h := Session.run_closeCalls events (Session.start conn)
  have h1 : ∀ b : Bool, count b ≤ 1 := fun b => by cases b <;> simp [count]
  have h2 := h1 ((Session.start conn).run events).readerEnded
  have h3 := h1 ((Session.start conn).run events).result.isSome
  simp only [Session.start, count, Bool.false_eq_true, if_false, Option.isSome_none] at h
  constructor
  · simpa [Session.start, count] using h
  · simp only [Session.start, count] at h2 h3 ⊢
    omega

/-- C8 as stated fails: the reader meets `io.EOF` and closes the connection, then
the close signal arrives and `quit` closes it again: two `Close` calls. -/
theorem Session.closed_twice :
    (Session.start { conn0 with reads := [⟨[], some .eof⟩] }).run [.read, .close]
      = { conn := { conn0 with closeCalls := 2 }, readerEnded := true, pending := none,
          msgchClosed := true, logged := [], result := some none, panicked := false }
    ∧ ((Session.start { conn0 with reads := [⟨[], some .eof⟩] }).run
        [.read, .close]).conn.closeCalls ≠ 1 := by
  decide

/-- The close signal alone, with the reader waiting in `Read`: `quit` closes the
connection, the reader is woken with `net.ErrClosed`, its send on the closed
`msgch` panics and its deferred call closes the connection again. -/
theorem Session.close_then_reader_panics :
    (Session.start conn0).run [.close, .read]
      = { conn := { conn0 with closeCalls := 2 }, readerEnded := true, pending := none,
          msgchClosed := true, logged := [], result := some none, panicked := true } := by
  decide

/-! ## `Run` -/

/-- When the dial loop returns `nil` the client holds a connection the network
produced. -/
theorem dialLoop_ok_conn (net : Dialer) (c : Client) (fuel : Nat) :
    ∀ (a : Int) (tr tr1 : DialTrace) (c1 : Client),
      dialLoop net c fuel a tr = some (none, c1, tr1) →
      ∃ i conn, net i = .ok conn ∧ c1 = { c with conn := some conn } := by
  induction fuel with
  | zero => intro a tr tr1 c1 h; simp [dialLoop] at h
  | succ f ih =>
    intro a tr tr1 c1 h
    unfold dialLoop at h
    split at h
    · simp at h
    · cases hnet : net tr.dials with
      | error e =>
        rw [hnet] at h
        exact ih _ _ _ _ h
      | ok conn =>
        rw [hnet] at h
        simp only [Option.some.injEq, Prod.mk.injEq, true_and] at h
        exact ⟨tr.dials, conn, hnet, h.1.symm⟩

/-- The handshake never calls `Close`: the scripted `Close` results are untouched. -/
theorem handleHandshake_closes (conn conn1 : Conn) (e : Option GoError)
    (h : handleHandshake conn = some (e, conn1)) : conn1.closes = conn.closes := by
  unfold handleHandshake at h
  cases hr : conn.Read 1024 with
  | none => simp [hr] at h
  | some x =>
    obtain ⟨buf, err, c1⟩ := x
    have hc := (Conn.Read_written conn c1 1024 buf err hr).2.1
    rw [hr] at h
    simp only at h
    split at h
    · simp only [Option.some.injEq, Prod.mk.injEq] at h
      rw [← h.2, hc]
    · split at h
      · simp only [Option.some.injEq, Prod.mk.injEq] at h
        rw [← h.2, hc]
      · split at h
        · simp only [Option.some.injEq, Prod.mk.injEq] at h
          rw [← h.2, hc]
        · split at h
          · simp only [Option.some.injEq, Prod.mk.injEq] at h
            rw [← h.2, hc]
          · have hw : ∀ b, (c1.Write b).2.closes = c1.closes := fun b => rfl
            split at h
            · rename_i heq
              simp only [Option.some.injEq, Prod.mk.injEq] at h
              rw [← h.2, ← hc, ← hw, heq]
            · rename_i heq
              simp only [Option.some.injEq, Prod.mk.injEq] at h
              rw [← h.2, ← hc, ← hw, heq]

/-- The scripted `Close` results still to come are always what is left of the
earlier ones. -/
theorem Session.step_closes (s : Session) (ev : Event) :
    (s.step ev).conn.closes <:+ s.conn.closes := by
  cases ev with
  | read =>
    rcases (Session.readerStep_spec s).2.2.2 with h | h
    · simp only [Session.step, h]
      exact List.suffix_refl _
    · simp only [Session.step, h]
      exact List.tail_suffix _
  | recv =>
    simp only [Session.step]
    split
    · exact List.suffix_refl _
    · split <;> exact List.suffix_refl _
  | tick =>
    simp only [Session.step, handleWriteTick, write_snd, Conn.Write]
    exact List.suffix_refl _
  | close =>
    simp only [Session.step]
    split
    · exact List.suffix_refl _
    · simp only [quit, Conn.Close]
      exact List.tail_suffix _

theorem Session.run_closes (events : List Event) :
    ∀ s : Session, (s.run events).conn.closes <:+ s.conn.closes := by
  induction events with
  | nil => intro s; exact List.suffix_refl _
  | cons ev rest ih =>
    intro s
    exact (ih (s.step ev)).trans (Session.step_closes s ev)

/-- Once `Run` has returned, its result stays. -/
theorem Session.step_result_some (s : Session) (ev : Event) (r : Option GoError)
    (h : s.result = some r) : (s.step ev).result = some r := by
  cases ev with
  | read => simp only [Session.step, (Session.readerStep_spec s).1, h]
  | recv => simp [Session.step, h]
  | tick => simp [Session.step, h]
  | close => simp [Session.step, h]

theorem Session.run_result_some (events : List Event) :
    ∀ (s : Session) (r : Option GoError), s.result = some r →
      (s.run events).result = some r := by
  induction events with
  | nil => intro s r h; exact h
  | cons ev rest ih =>
    intro s r h
    exact ih (s.step ev) r (Session.step_result_some s ev r h)

/-- While `Run` has not returned, only the close signal makes it return, and
with the result of `c.conn.Close()` on the connection as it then is. -/
theorem Session.step_result_none (s : Session) (ev : Event) (h : s.result = none) :
    (ev ≠ .close → (s.step ev).result = none)
    ∧ (ev = .close → (s.step ev).result = some s.conn.Close.1) := by
  cases ev with
  | read => simp only [Session.step, (Session.readerStep_spec s).1, h]; simp
  | recv =>
    simp only [Session.step, h]
    constructor
    · intro _
      simp only [Option.isSome_none, Bool.false_eq_true, if_false]
      split <;> simp [h]
    · intro hc
      cases hc
  | tick => simp [Session.step, h]
  | close => simp [Session.step, h, quit]

/-- The value `Run` returns from the session is the result of `c.conn.Close()`
on the connection as it is when the coordinator takes the close signal. -/
theorem Session.run_result_origin (events : List Event) :
    ∀ (s : Session) (r : Option GoError), s.result = none →
      (s.run events).result = some r →
      ∃ before after, events = before ++ Event.close :: after
        ∧ (s.run before).result = none ∧ r = (s.run before).conn.Close.1 := by
  induction events with
  | nil =>
    intro s r h hr
    simp only [Session.run, List.foldl_nil] at hr
    rw [h] at hr
    cases hr
  | cons ev rest ih =>
    intro s r h hr
    by_cases hev : ev = .close
    · subst hev
      refine ⟨[], rest, rfl, h, ?_⟩
      have h1 := (Session.step_result_none s .close h).2 rfl
      have h2 := Session.run_result_some rest (s.step .close) _ h1
      simp only [Session.run, List.foldl_cons] at hr h2
      rw [h2] at hr
      simp only [Option.some.injEq] at hr
      exact hr.symm
    · have h1 := (Session.step_result_none s ev h).1 hev
      obtain ⟨before, after, he, hb, hres⟩ := ih (s.step ev) r h1 hr
      exact ⟨ev :: before, after, by simp [he], hb, hres⟩

/-- Once the close signal is among the events, `Run` has returned. -/
theorem Session.run_returns (events : List Event) :
    ∀ s : Session, Event.close ∈ events → (s.run events).result.isSome := by
  induction events with
  | nil => intro s h; simp at h
  | cons ev rest ih =>
    intro s h
    by_cases hev : ev = .close
    · subst hev
      cases hres : s.result with
      | some r =>
        have := Session.run_result_some (Event.close :: rest) s r hres
        simp [this]
      | none =>
        have h1 := (Session.step_result_none s .close hres).2 rfl
        have h2 := Session.run_result_some rest (s.step .close) _ h1
        simp only [Session.run, List.foldl_cons] at h2 ⊢
        simp [h2]
    · rcases List.mem_cons.mp h with h | h
      · exact absurd h.symm hev
      · exact ih (s.step ev) h

/-- C6, as the code has it: after a successful dial `Run` returns nothing but
the result of the `c.conn.Close()` call that `quit` makes when the close
signal is taken: that value is `nil` or one of the results the connection
has for `Close`, never an error of the handshake, of a read or of a write;
and once the handshake has returned and the close signal is among the events,
`Run` has returned. -/
theorem Run_result_is_close_result (net : Dialer) (c c1 : Client) (fuel : Nat)
    (tr : DialTrace) (events : List Event)
    (hdial : dial net c fuel = some (none, c1, tr)) :
    ∃ conn out, c1.conn = some conn ∧ Run net c fuel events = some out
      ∧ (∀ r, out.result = some r →
          ∃ herr conn1 before after, handleHandshake conn = some (herr, conn1)
            ∧ events = before ++ Event.close :: after
            ∧ ((Session.start conn1).run before).result = none
            ∧ r = ((Session.start conn1).run before).conn.Close.1)
      ∧ (∀ r, out.result = some r → r = none ∨ r ∈ conn.closes)
      ∧ (∀ herr conn1, handleHandshake conn = some (herr, conn1) → Event.close ∈ events →
          out.result.isSome) := by
  obtain ⟨i, conn, hnet, hc1⟩ := dialLoop_ok_conn net c fuel _ _ _ _ hdial
  have hconn : c1.conn = some conn := by rw [hc1]
  refine ⟨conn, ?_⟩
  unfold Run
  rw [hdial]
  simp only [hconn]
  cases hh : handleHandshake conn with
  | none =>
    refine ⟨_, trivial, rfl, ?_, ?_, ?_⟩
    · intro r hr
      simp [RunOutcome.result] at hr
    · intro r hr
      simp [RunOutcome.result] at hr
    · intro herr conn1 h
      cases h
  | some x =>
    obtain ⟨herr, conn1⟩ := x
    have hcl : conn1.closes = conn.closes := handleHandshake_closes conn conn1 herr hh
    have horigin : ∀ r, ((Session.start conn1).run events).result = some r →
        ∃ before after, events = before ++ Event.close :: after
          ∧ ((Session.start conn1).run before).result = none
          ∧ r = ((Session.start conn1).run before).conn.Close.1 := fun r hr =>
      Session.run_result_origin events (Session.start conn1) r rfl hr
    refine ⟨_, trivial, rfl, ?_, ?_, ?_⟩
    · intro r hr
      obtain ⟨before, after, he, hb, hres⟩ := horigin r hr
      exact ⟨herr, conn1, before, after, rfl, he, hb, hres⟩
    · intro r hr
      obtain ⟨before, after, -, -, hres⟩ := horigin r hr
      have hsuf : ((Session.start conn1).run before).conn.closes <:+ conn.closes := by
        have := Session.run_closes before (Session.start conn1)
        simpa [Session.start, hcl] using this
      rw [hres]
      simp only [Conn.Close]
      cases hcs : ((Session.start conn1).run before).conn.closes with
      | nil => left; rfl
      | cons e rest =>
        right
        rw [hcs] at hsuf
        exact hsuf.subset (by simp)
    · intro _ _ _ hev
      exact Session.run_returns events (Session.start conn1) hev

theorem Run_result_is_close_result_witness :
    ∃ conn out, ({ NewClient ⟨7, 2, ":3000"⟩ with conn := some connFaulty } : Client).conn
        = some conn
      ∧ Run (fun _ => .ok connFaulty) (NewClient ⟨7, 2, ":3000"⟩) 1
          [.read, .recv, .tick, .close] = some out
      ∧ (∀ r, out.result = some r →
          ∃ herr conn1 before after, handleHandshake conn = some (herr, conn1)
            ∧ [Event.read, .recv, .tick, .close] = before ++ Event.close :: after
            ∧ ((Session.start conn1).run before).result = none
            ∧ r = ((Session.start conn1).run before).conn.Close.1)
      ∧ (∀ r, out.result = some r → r = none ∨ r ∈ conn.closes)
      ∧ (∀ herr conn1, handleHandshake conn = some (herr, conn1) →
          Event.close ∈ [Event.read, .recv, .tick, .close] → out.result.isSome) :=
  Run_result_is_close_result (fun _ => .ok connFaulty) (NewClient ⟨7, 2, ":3000"⟩)
    { NewClient ⟨7, 2, ":3000"⟩ with conn := some connFaulty } 1 ⟨1, []⟩
    [.read, .recv, .tick, .close] (by decide)

/-- The run of the witness above, evaluated: the handshake fails on the version,
a read fails, a write fails, and `Run` returns `nil`. -/
theorem Run_faulty_server_returns_nil :
    Run (fun _ => .ok connFaulty) (NewClient ⟨7, 2, ":3000"⟩) 1 [.read, .recv, .tick, .close]
      = some (.session ⟨1, []⟩
          (some (.new "handshake error, expected protocol version: 1"))
          { conn := { conn0 with writes := [some (.net 32)], written := [helloPayload],
                                 closeCalls := 1 },
            readerEnded := false, pending := none, msgchClosed := true, logged := [[]],
            result := some none, panicked := false }) := by
  decide

/-- C6 as stated fails: the dial succeeds, the server ends the stream, the reader
closes the connection, the close signal arrives and `Run` returns the error of
the second `Close`. -/
theorem Run_returns_close_error :
    dial netHangup (NewClient ⟨7, 2, ":3000"⟩) 1
      = some (none, { NewClient ⟨7, 2, ":3000"⟩ with conn := some connHangup }, ⟨1, []⟩)
    ∧ (Run netHangup (NewClient ⟨7, 2, ":3000"⟩) 1 [.read, .close]).map RunOutcome.result
      = some (some (some errClosed)) := by
  decide

end PfcTcpClient
